import Mathlib

/-!
Verification of the asset-companion image-normalization pipeline.

The Python sources under `backend/asset_companion/` are shallowly embedded:
images become a structure carrying dimensions, a PIL-style mode string and a
total pixel function; Python floats are modelled as exact rationals; Python
`int()` (applied only to nonnegative values in this code base) is the floor,
and Python `round()` is round-half-to-even.  External OpenCV kernels (Lanczos
resampling weights, Gaussian blur, inpainting, saliency) are abstracted: the
embedding keeps the exact dimensions, control flow and channel bookkeeping of
the source, which is what the verified properties are about.
-/

/-- Python `int(q)` for the nonnegative rationals this code applies it to:
truncation toward zero coincides with the floor there. -/
def pyInt (q : ℚ) : ℤ := q.floor

/-- Python `round(q)`: round half to even (banker's rounding). -/
def pyRound (q : ℚ) : ℤ :=
  let f := q.floor
  let r := q - f
  if r < 1/2 then f
  else if 1/2 < r then f + 1
  else if f % 2 = 0 then f else f + 1

/-- `np.clip(q, lo, hi)`. -/
def clipQ (q lo hi : ℚ) : ℚ := min hi (max lo q)

/-- An RGBA pixel; channels are byte values. -/
structure Pix where
  r : ℕ
  g : ℕ
  b : ℕ
  a : ℕ
deriving DecidableEq

/-- The fully transparent pixel used for fresh canvases. -/
def transparentPix : Pix := ⟨0, 0, 0, 0⟩

/-- A PIL image: dimensions, mode string and a total pixel map (only the
coordinates below `width`/`height` are meaningful). -/
structure Img where
  width : ℕ
  height : ℕ
  mode : String
  pixel : ℕ → ℕ → Pix

/-- `backend/asset_companion/scale.py`, `choose_integer_scale`:
`max(1, min(target // max(1, w), target // max(1, h)))`, then `max(sf, 1)`. -/
def choose_integer_scale (src_wh : ℕ × ℕ) (target : ℕ) : ℕ :=
  let sf := max 1 (min (target / max 1 src_wh.1) (target / max 1 src_wh.2))
  max sf 1

/-- `scale.py`, `resize_nearest`: multiply both dimensions by the integer
factor, sampling with nearest-neighbor. -/
def resize_nearest (img : Img) (scale : ℕ) : Img :=
  { width := img.width * scale
    height := img.height * scale
    mode := img.mode
    pixel := fun x y => img.pixel (x / scale) (y / scale) }

/-- `scale.py`, `resize_lanczos_to_box`: resize to the exact requested
dimensions.  The Lanczos resampling weights are external to the repository;
the embedding keeps the exact output dimensions (all verified claims about
resizing concern dimensions) and samples pixels by coordinate scaling. -/
def resize_lanczos_to_box (img : Img) (target_wh : ℕ × ℕ) : Img :=
  { width := target_wh.1
    height := target_wh.2
    mode := img.mode
    pixel := fun x y =>
      img.pixel (x * img.width / max 1 target_wh.1)
        (y * img.height / max 1 target_wh.2) }

/-- `scale.py`, `resize_lanczos_fit_long`: no-op when the long side already
fits, else scale down so the long side equals `target_long`. -/
def resize_lanczos_fit_long (img : Img) (target_long : ℕ) : Img :=
  let w := img.width
  let h := img.height
  if max w h ≤ target_long then img
  else if h ≤ w then
    resize_lanczos_to_box img
      (target_long, max 1 (pyInt ((h : ℚ) * ((target_long : ℚ) / (w : ℚ)))).toNat)
  else
    resize_lanczos_to_box img
      (max 1 (pyInt ((w : ℚ) * ((target_long : ℚ) / (h : ℚ)))).toNat, target_long)

/-- `backend/asset_companion/pad_crop.py`, `aspect_delta`:
`abs((w / max(1.0, h)) - 1.0)`. -/
def aspect_delta (w h : ℕ) : ℚ := |(w : ℚ) / max 1 (h : ℚ) - 1|

/-- `pad_crop.py`, `pad_to_square` with `inpaint=False` (every call site in
the repository passes `inpaint=False`; the `inpaint=True` branch delegates to
external `cv2.inpaint` and is outside the model).  The `assert` of the
`w <= side and h <= side` invariant is modelled as an `Except.error`. -/
def pad_to_square (img : Img) (side : ℕ) : Except String Img :=
  let w := img.width
  let h := img.height
  if ¬ (w ≤ side ∧ h ≤ side) then
    .error "pad_to_square invariant violated"
  else if w = side ∧ h = side then
    .ok img
  else
    let x := (side - w) / 2
    let y := (side - h) / 2
    .ok { width := side
          height := side
          mode := "RGBA"
          pixel := fun X Y =>
            if x ≤ X ∧ X < x + w ∧ y ≤ Y ∧ Y < y + h then
              img.pixel (X - x) (Y - y)
            else transparentPix }

/-- `backend/asset_companion/detect.py`, the `Kind` enumeration. -/
inductive Kind where
  | auto
  | pixel_art
  | illustration
deriving DecidableEq

/-- `detect.py`, `bbox_from_alpha`: `None` unless the mode is RGBA; else the
tight box over pixels with alpha above the threshold, `None` when empty.
Coordinates are Python ints, hence `ℤ` here. -/
def bbox_from_alpha (img : Img) (alpha_threshold : ℕ := 5) :
    Option (ℤ × ℤ × ℤ × ℤ) :=
  if img.mode ≠ "RGBA" then none
  else
    let coords :=
      (List.range img.height).flatMap fun y =>
        (List.range img.width).filterMap fun x =>
          if alpha_threshold < (img.pixel x y).a then some (x, y) else none
    match coords with
    | [] => none
    | c :: cs =>
      let xs := (c :: cs).map Prod.fst
      let ys := (c :: cs).map Prod.snd
      some ((xs.foldl min c.1 : ℕ), (ys.foldl min c.2 : ℕ),
            (xs.foldl max c.1 : ℕ), (ys.foldl max c.2 : ℕ))

/-- `detect.py`, `is_alpha_bbox_meaningful`: keep the bbox only when it trims
at least `min_trim` of the area or shrinks a side below 95%. -/
def is_alpha_bbox_meaningful (img : Img) (bbox : ℤ × ℤ × ℤ × ℤ)
    (min_trim : ℚ := 1/20) : Bool :=
  let x0 := bbox.1
  let y0 := bbox.2.1
  let x1 := bbox.2.2.1
  let y1 := bbox.2.2.2
  let original_area : ℚ := (img.width : ℚ) * (img.height : ℚ)
  let bbox_area : ℚ := ((x1 - x0 + 1 : ℤ) : ℚ) * ((y1 - y0 + 1 : ℤ) : ℚ)
  let trim_part : ℚ := 1 - bbox_area / original_area
  let wPart : ℚ := ((x1 - x0 + 1 : ℤ) : ℚ) / (img.width : ℚ)
  let hPart : ℚ := ((y1 - y0 + 1 : ℤ) : ℚ) / (img.height : ℚ)
  decide (min_trim ≤ trim_part) || decide (wPart < 19/20) ||
    decide (hPart < 19/20)

/-- `detect.py`, `bbox_from_saliency`, modelled as its fallback result
`(0, 0, w - 1, h - 1)`: the spectral-residual saliency estimator is an
external `cv2.saliency` collaborator, and no verified claim depends on a
non-fallback saliency box (the pipeline's default path never calls this). -/
def bbox_from_saliency (img : Img) : ℤ × ℤ × ℤ × ℤ :=
  (0, 0, (img.width : ℤ) - 1, (img.height : ℤ) - 1)

/-- `Image.crop((left, upper, right, lower))`: dimensions are the box sizes,
out-of-source coordinates read as transparent black. -/
def cropImg (img : Img) (left upper right lower : ℤ) : Img :=
  { width := (right - left).toNat
    height := (lower - upper).toNat
    mode := img.mode
    pixel := fun X Y =>
      let sx := left + X
      let sy := upper + Y
      if 0 ≤ sx ∧ sx < (img.width : ℤ) ∧ 0 ≤ sy ∧ sy < (img.height : ℤ) then
        img.pixel sx.toNat sy.toNat
      else transparentPix }

/-- `detect.py`, `crop_to_bbox`: expand by `margin`, clamp to the image, crop
with an inclusive-to-exclusive conversion. -/
def crop_to_bbox (img : Img) (bbox : ℤ × ℤ × ℤ × ℤ) (margin : ℤ := 0) : Img :=
  let x0 := max 0 (bbox.1 - margin)
  let y0 := max 0 (bbox.2.1 - margin)
  let x1 := min ((img.width : ℤ) - 1) (bbox.2.2.1 + margin)
  let y1 := min ((img.height : ℤ) - 1) (bbox.2.2.2 + margin)
  cropImg img x0 y0 (x1 + 1) (y1 + 1)

/-- `pad_crop.py`, `smart_square`.  The default `allow_crop=False` path always
pads; the opt-in crop path center-crops (saliency-centered when requested). -/
def smart_square (img : Img) (side : ℕ) (use_saliency : Bool := false)
    (allow_crop : Bool := false) : Except String Img :=
  let w := img.width
  let h := img.height
  if w = side ∧ h = side then .ok img
  else if aspect_delta w h < 1/10 then
    if side < max w h then
      pad_to_square (resize_lanczos_fit_long img side) side
    else
      pad_to_square img side
  else
    let img_fit := resize_lanczos_fit_long img side
    let w := img_fit.width
    let h := img_fit.height
    if allow_crop = false then
      pad_to_square img_fit side
    else if side ≤ w ∧ side ≤ h then
      let c : ℤ × ℤ :=
        if use_saliency then
          let bbox := bbox_from_saliency img_fit
          ((bbox.1 + bbox.2.2.1) / 2, (bbox.2.1 + bbox.2.2.2) / 2)
        else ((w : ℤ) / 2, (h : ℤ) / 2)
      let x0 := max 0 (min ((w : ℤ) - side) (c.1 - (side : ℤ) / 2))
      let y0 := max 0 (min ((h : ℤ) - side) (c.2 - (side : ℤ) / 2))
      .ok (cropImg img_fit x0 y0 (x0 + side) (y0 + side))
    else
      pad_to_square img_fit side

/-- The transparent canvas-and-center-paste used twice in `fit_to_size`
(`Image.new` + `canvas.paste`; offsets are Python floor divisions). -/
def pasteCanvas (target_w target_h : ℕ) (img : Img) : Img :=
  let x : ℤ := ((target_w : ℤ) - (img.width : ℤ)) / 2
  let y : ℤ := ((target_h : ℤ) - (img.height : ℤ)) / 2
  { width := target_w
    height := target_h
    mode := "RGBA"
    pixel := fun X Y =>
      if x ≤ (X : ℤ) ∧ (X : ℤ) < x + img.width ∧ y ≤ (Y : ℤ) ∧
          (Y : ℤ) < y + img.height then
        img.pixel ((X : ℤ) - x).toNat ((Y : ℤ) - y).toNat
      else transparentPix }

/-- `pad_crop.py`, `fit_to_size`: downscale into the box when needed (with the
two one-pixel overshoot clamps of the source), then pad (default) or
center-crop (opt-in) to the exact target dimensions. -/
def fit_to_size (img : Img) (target_w target_h : ℕ)
    (allow_crop : Bool := false) : Img :=
  let w := img.width
  let h := img.height
  if w = target_w ∧ h = target_h then img
  else
    let img_aspect : ℚ := if 0 < h then (w : ℚ) / (h : ℚ) else 1
    let target_aspect : ℚ :=
      if 0 < target_h then (target_w : ℚ) / (target_h : ℚ) else 1
    let needs_downscale := target_w < w ∨ target_h < h
    let img_fit :=
      if needs_downscale then
        let p1 : ℕ × ℕ :=
          if target_aspect ≤ img_aspect then
            (target_w,
             max 1 (pyInt ((h : ℚ) * ((target_w : ℚ) / (w : ℚ)))).toNat)
          else
            (max 1 (pyInt ((w : ℚ) * ((target_h : ℚ) / (h : ℚ)))).toNat,
             target_h)
        let p2 : ℕ × ℕ :=
          if target_w < p1.1 then
            (target_w, (pyInt ((p1.2 : ℚ) * ((target_w : ℚ) / (p1.1 : ℚ)))).toNat)
          else p1
        let p3 : ℕ × ℕ :=
          if target_h < p2.2 then
            ((pyInt ((p2.1 : ℚ) * ((target_h : ℚ) / (p2.2 : ℚ)))).toNat, target_h)
          else p2
        resize_lanczos_to_box img p3
      else img
    if allow_crop = false then
      pasteCanvas target_w target_h img_fit
    else if target_w ≤ img_fit.width ∧ target_h ≤ img_fit.height then
      let x0 : ℤ := ((img_fit.width : ℤ) - target_w) / 2
      let y0 : ℤ := ((img_fit.height : ℤ) - target_h) / 2
      cropImg img_fit x0 y0 (x0 + target_w) (y0 + target_h)
    else
      pasteCanvas target_w target_h img_fit

/-- Byte conversion `np.clip(v, 0, 255).astype(np.uint8)` of a channel. -/
def clampChan (v : ℚ) : ℕ := (pyInt (clipQ v 0 255)).toNat

/-- `backend/asset_companion/alpha_fix.py`, the per-pixel body of
`unpremultiply_rgba`: normalize alpha, and where it exceeds `1e-5` divide the
RGB channels by the (clipped) alpha and clip back into bytes. -/
def unpremultiplyPix (p : Pix) : Pix :=
  let a : ℚ := (p.a : ℚ) / 255
  if 1/100000 < a then
    let d := clipQ a (1/100000) 1
    { r := clampChan ((p.r : ℚ) / d)
      g := clampChan ((p.g : ℚ) / d)
      b := clampChan ((p.b : ℚ) / d)
      a := p.a }
  else p

/-- `alpha_fix.py`, `unpremultiply_rgba`: identity on non-RGBA images, else
the per-pixel unpremultiply. -/
def unpremultiply_rgba (img : Img) : Img :=
  if img.mode ≠ "RGBA" then img
  else { img with pixel := fun x y => unpremultiplyPix (img.pixel x y) }

/-- `cv2.dilate` of the alpha channel with a square `(2r+1)²` kernel: the
maximum of the alpha values over the in-bounds part of the window. -/
def dilatedAlpha (img : Img) (radius : ℕ) (x y : ℕ) : ℕ :=
  ((List.range (2 * radius + 1)).flatMap fun dx =>
      (List.range (2 * radius + 1)).map fun dy => (dx, dy)).foldl
    (fun m d =>
      let sx : ℤ := (x : ℤ) + d.1 - radius
      let sy : ℤ := (y : ℤ) + d.2 - radius
      if 0 ≤ sx ∧ sx < (img.width : ℤ) ∧ 0 ≤ sy ∧ sy < (img.height : ℤ) then
        max m (img.pixel sx.toNat sy.toNat).a
      else m)
    0

/-- `alpha_fix.py`, `defringe_alpha`: identity on non-RGBA images, else
replace the alpha channel by its dilation. -/
def defringe_alpha (img : Img) (radius : ℕ := 1) : Img :=
  if img.mode ≠ "RGBA" then img
  else
    { img with pixel := fun x y =>
        { img.pixel x y with a := dilatedAlpha img radius x y } }

/-- The `cv2.GaussianBlur` of the alpha channel in `smooth_alpha_edges`.  The
Gaussian kernel is an external OpenCV collaborator; it is abstracted here as
the unblurred alpha value, and no verified claim concerns the RGBA branch of
`smooth_alpha_edges`. -/
def gaussianBlurAlpha (img : Img) (_radius : ℚ) (x y : ℕ) : ℚ :=
  ((img.pixel x y).a : ℚ)

/-- `alpha_fix.py`, `smooth_alpha_edges`: identity on non-RGBA images, else
replace the alpha channel by its clipped Gaussian blur. -/
def smooth_alpha_edges (img : Img) (radius : ℚ := 1/2) : Img :=
  if img.mode ≠ "RGBA" then img
  else
    { img with pixel := fun x y =>
        { img.pixel x y with
          a := (pyInt (clipQ (gaussianBlurAlpha img radius x y) 0 255)).toNat } }

/-- The `pil_img.filter(ImageFilter.GaussianBlur(radius))` step of
`unsharp_mask`.  The Gaussian kernel is an external Pillow collaborator; it is
abstracted as the unblurred image, and no verified claim concerns the values
produced by `unsharp_mask`. -/
def gaussianBlurImg (img : Img) (_radius : ℚ) : Img := img

/-- `backend/asset_companion/enhance.py`, `unsharp_mask`:
`clip(original + amount*(original - blurred), 0, 255)`, on the RGB channels
only when `rgb_only` and the image is RGBA, else on all four channels. -/
def unsharp_mask (img : Img) (radius : ℚ := 1) (amount : ℚ := 1/5)
    (rgb_only : Bool := false) : Img :=
  let blur := gaussianBlurImg img radius
  if rgb_only = true ∧ img.mode = "RGBA" then
    { img with pixel := fun x y =>
        let p := img.pixel x y
        let q := blur.pixel x y
        { r := clampChan ((p.r : ℚ) + amount * ((p.r : ℚ) - (q.r : ℚ)))
          g := clampChan ((p.g : ℚ) + amount * ((p.g : ℚ) - (q.g : ℚ)))
          b := clampChan ((p.b : ℚ) + amount * ((p.b : ℚ) - (q.b : ℚ)))
          a := p.a } }
  else
    { img with pixel := fun x y =>
        let p := img.pixel x y
        let q := blur.pixel x y
        { r := clampChan ((p.r : ℚ) + amount * ((p.r : ℚ) - (q.r : ℚ)))
          g := clampChan ((p.g : ℚ) + amount * ((p.g : ℚ) - (q.g : ℚ)))
          b := clampChan ((p.b : ℚ) + amount * ((p.b : ℚ) - (q.b : ℚ)))
          a := clampChan ((p.a : ℚ) + amount * ((p.a : ℚ) - (q.a : ℚ))) } }

/-- The `while power < value: power <<= 1` loop of
`backend/asset_companion/size_utils.py`, `round_to_power_of_two`, modelled
with an explicit iteration bound (the power doubles from 1, so `value.toNat`
iterations always reach the loop's exit condition). -/
def growPowerAux : ℕ → ℤ → ℤ → ℤ
  | 0, _, power => power
  | fuel + 1, value, power =>
    if power < value then growPowerAux fuel value (2 * power) else power

/-- The smallest power of two at or above `value`, as computed by the loop of
`round_to_power_of_two` starting from `power = 1`. -/
def growPower (value : ℤ) : ℤ := growPowerAux value.toNat value 1

/-- `size_utils.py`, `round_to_power_of_two`: 1 for nonpositive input, else
the nearer of the smallest covering power of two and its half, the strict
comparison sending exact ties to the half. -/
def round_to_power_of_two (value : ℤ) : ℤ :=
  if value ≤ 0 then 1
  else
    let power := growPower value
    if power - value < value - power / 2 then power
    else if 0 < power / 2 then power / 2
    else 1

/-- `size_utils.py`, `round_to_multiple`:
`round(value / multiple) * multiple` with Python's half-to-even `round`,
guarded to return `multiple` for nonpositive input. -/
def round_to_multiple (value multiple : ℤ) : ℤ :=
  if value ≤ 0 then multiple
  else pyRound ((value : ℚ) / (multiple : ℚ)) * multiple

/-- `size_utils.py`, `auto_suggest_size`: fall back to `(256, 256)` on
degenerate input, else round the long side (power of two or multiple of 8),
derive the short side from the aspect ratio floored at 8, and snap both to
multiples of 8. -/
def auto_suggest_size (width height : ℤ)
    (prefer_power_of_two : Bool := true) : ℤ × ℤ :=
  if width ≤ 0 ∨ height ≤ 0 then (256, 256)
  else
    let aspect : ℚ := (width : ℚ) / (height : ℚ)
    let long_side := max width height
    let suggested_long :=
      if prefer_power_of_two then round_to_power_of_two long_side
      else round_to_multiple long_side 8
    let p : ℤ × ℤ :=
      if height ≤ width then
        (suggested_long, max 8 (pyRound ((suggested_long : ℚ) / aspect)))
      else
        (max 8 (pyRound ((suggested_long : ℚ) * aspect)), suggested_long)
    (round_to_multiple p.1 8, round_to_multiple p.2 8)

/-- `size_utils.py`, `calculate_target_size`: custom passthrough (raising
when the custom dimensions are missing), power-of-two and multiple modes with
aspect-derived short side, and the auto fallback. -/
def calculate_target_size (width height : ℤ) (mode : String)
    (custom_width custom_height : Option ℤ := none) (multiple : ℤ := 8) :
    Except String (ℤ × ℤ) :=
  if mode = "custom" then
    match custom_width, custom_height with
    | some cw, some ch => .ok (cw, ch)
    | _, _ => .error "custom_width and custom_height required for custom mode"
  else if mode = "power_of_two" then
    let aspect : ℚ := if 0 < height then (width : ℚ) / (height : ℚ) else 1
    let long_side := max width height
    let suggested_long := round_to_power_of_two long_side
    if height ≤ width then
      .ok (suggested_long,
        max 8 (round_to_power_of_two (pyRound ((suggested_long : ℚ) / aspect))))
    else
      .ok (max 8 (round_to_power_of_two (pyRound ((suggested_long : ℚ) * aspect))),
        suggested_long)
  else if mode = "multiple" then
    let aspect : ℚ := if 0 < height then (width : ℚ) / (height : ℚ) else 1
    let long_side := max width height
    let suggested_long := round_to_multiple long_side multiple
    if height ≤ width then
      .ok (suggested_long,
        max multiple
          (round_to_multiple (pyRound ((suggested_long : ℚ) / aspect)) multiple))
    else
      .ok (max multiple
          (round_to_multiple (pyRound ((suggested_long : ℚ) * aspect)) multiple),
        suggested_long)
  else
    .ok (auto_suggest_size width height true)

/-- The metadata record of `backend/asset_companion/pipeline.py`,
`process_one` (a JSON object per image; only the fields the verification
reasons about are kept, matching the keys written by the source). -/
structure MetaRec where
  src : String
  ok : Bool
  error : Option String := none
  dst : Option String := none
  final_w : Option ℕ := none
  final_h : Option ℕ := none
  kind : Option Kind := none
  trimmed : Option Bool := none
deriving DecidableEq

/-- The outside world a `process_one` run interacts with: the outcome of each
external, fallible primitive (image codec, super-resolution binary, log
sink).  `none` for the `Option String` fields means the call succeeded; a
`some` carries the exception text. -/
structure World where
  loadSrc : Except String Img
  detectKind : Kind
  saveTmpIn : Img → Option String
  runRealesrgan : Option String
  loadTmpOut : Except String Img
  saveDst : Img → Option String
  logOk : Bool

/-- Filesystem effects of one `process_one` run: whether an output image now
exists at the destination path, and the records appended to the JSONL log. -/
structure FsState where
  dstWritten : Bool
  log : List MetaRec
deriving DecidableEq

/-- The `except Exception` handler of `process_one`: build the error record,
append it to the log when a log path is given and the sink works (the inner
`try` swallows log failures), and re-raise with the source path prefixed. -/
def failWith (log_jsonl : Option String) (logOk : Bool) (src : String)
    (s : FsState) (e : String) : FsState × Except String MetaRec :=
  let errMeta : MetaRec := { src := src, ok := false, error := some e }
  ((if log_jsonl.isSome ∧ logOk = true then
      { s with log := s.log ++ [errMeta] }
    else s),
   .error (src ++ ": " ++ e))

/-- The body of `process_one` from kind resolution through the kind-specific
scale/fit stages and illustration alpha smoothing (source lines 88-167),
returning the image ready for enhancement together with the resolved kind and
the trim decision.  Failures of the super-resolution collaborator and the
`pad_to_square` invariant assertion surface as `Except.error`. -/
def pipelineStages (wld : World) (pil0 : Img) (target : ℕ)
    (target_w target_h : Option ℕ) (kind : Kind) (superres : String) :
    Except String (Img × Kind × Bool) :=
  let dims : ℕ × ℕ × Bool :=
    match target_w, target_h with
    | some tw, some th => (tw, th, false)
    | _, _ => (target, target, true)
  let final_w := dims.1
  let final_h := dims.2.1
  let is_square := dims.2.2
  let k := match kind with
    | Kind.auto => wld.detectKind
    | k2 => k2
  let trimStep : Img × Bool :=
    match bbox_from_alpha pil0 with
    | some bbox =>
      if is_alpha_bbox_meaningful pil0 bbox then
        (crop_to_bbox pil0 bbox 2, true)
      else (pil0, false)
    | none => (pil0, false)
  let pil1 := unpremultiply_rgba trimStep.1
  let pil2 := if k = Kind.pixel_art then defringe_alpha pil1 1 else pil1
  if k = Kind.pixel_art then
    if is_square then
      let sf := choose_integer_scale (pil2.width, pil2.height) target
      let pil3 := resize_nearest pil2 sf
      (smart_square pil3 target false false).map fun out =>
        (out, k, trimStep.2)
    else
      let long_side := max pil2.width pil2.height
      let target_long := max final_w final_h
      let sf := choose_integer_scale (long_side, long_side) target_long
      let pil3 := resize_nearest pil2 sf
      .ok (fit_to_size pil3 final_w final_h false, k, trimStep.2)
  else
    let srStep : Except String Img :=
      if superres = "realesrgan" then
        match wld.saveTmpIn pil2 with
        | some e => .error e
        | none =>
          match wld.runRealesrgan with
          | some e => .error e
          | none => wld.loadTmpOut
      else .ok pil2
    srStep.bind fun pil3 =>
      (if is_square then smart_square pil3 target false false
       else .ok (fit_to_size pil3 final_w final_h false)).map fun out =>
        (smooth_alpha_edges out (1/2), k, trimStep.2)

/-- `pipeline.py`, `process_one`: load, run the pipeline stages, apply the
kind-specific unsharp mask, save, then append the success record to the log.
Any exception is routed through `failWith`; a failing final log append is
itself an exception caught by the same handler (with the output already on
disk at that point). -/
def process_one (wld : World) (src dst : String) (target : ℕ := 512)
    (target_w target_h : Option ℕ := none) (kind : Kind := Kind.auto)
    (superres : String := "none") (log_jsonl : Option String := none) :
    FsState × Except String MetaRec :=
  let s0 : FsState := ⟨false, []⟩
  match wld.loadSrc with
  | .error e => failWith log_jsonl wld.logOk src s0 e
  | .ok pil =>
    match pipelineStages wld pil target target_w target_h kind superres with
    | .error e => failWith log_jsonl wld.logOk src s0 e
    | .ok staged =>
      let k := staged.2.1
      let enhanced :=
        if k = Kind.pixel_art then unsharp_mask staged.1 1 (1/5) false
        else unsharp_mask staged.1 1 (1/10) true
      match wld.saveDst enhanced with
      | some e => failWith log_jsonl wld.logOk src s0 e
      | none =>
        let s1 : FsState := { s0 with dstWritten := true }
        let meta : MetaRec :=
          { src := src, ok := true, dst := some dst,
            final_w := some enhanced.width, final_h := some enhanced.height,
            kind := some k, trimmed := some staged.2.2 }
        match log_jsonl with
        | none => (s1, .ok meta)
        | some _ =>
          if wld.logOk = true then
            ({ s1 with log := s1.log ++ [meta] }, .ok meta)
          else failWith log_jsonl wld.logOk src s1 "log write failed"

/-- Batteries' computable `Rat.floor` agrees with the `FloorRing` floor. -/
theorem ratFloor_eq_intFloor (q : ℚ) : q.floor = ⌊q⌋ := by
  rw [Rat.floor_def', Rat.floor_def]

/-- `pyRound` picks a nearest integer: its distance to `q` is at most the
distance of any integer to `q`. -/
theorem pyRound_dist (q : ℚ) (z : ℤ) : |(pyRound q : ℚ) - q| ≤ |(z : ℚ) - q| := by
  have hf : (⌊q⌋ : ℚ) ≤ q := Int.floor_le q
  have hf1 : q < ⌊q⌋ + 1 := Int.lt_floor_add_one q
  have h1 : (z : ℚ) - q ≤ |(z : ℚ) - q| := le_abs_self _
  have h2 : q - z ≤ |(z : ℚ) - q| := by rw [abs_sub_comm]; exact le_abs_self _
  have hz : (z : ℚ) ≤ ⌊q⌋ ∨ (⌊q⌋ : ℚ) + 1 ≤ z := by
    rcases le_or_lt z ⌊q⌋ with h | h
    · left; exact_mod_cast h
    · right; exact_mod_cast h
  simp only [pyRound, ratFloor_eq_intFloor]
  split_ifs with hlt hgt heven
  · rw [abs_sub_comm, abs_of_nonneg (by linarith)]
    rcases hz with h | h <;> linarith
  · push_cast
    rw [abs_of_nonneg (by linarith)]
    rcases hz with h | h <;> linarith
  · have hr : q - ⌊q⌋ = 1/2 := le_antisymm (not_lt.mp hgt) (not_lt.mp hlt)
    rw [abs_sub_comm, abs_of_nonneg (by linarith)]
    rcases hz with h | h <;> linarith
  · have hr : q - ⌊q⌋ = 1/2 := le_antisymm (not_lt.mp hgt) (not_lt.mp hlt)
    push_cast
    rw [abs_of_nonneg (by linarith)]
    rcases hz with h | h <;> linarith

/-- `round_to_multiple` returns a nearest multiple (distance form). -/
theorem round_to_multiple_nearest (v m : ℤ) (hv : 1 ≤ v) (hm : 1 ≤ m)
    (z : ℤ) : |round_to_multiple v m - v| ≤ |z * m - v| := by
  rw [round_to_multiple, if_neg (by omega)]
  have hm0 : (0 : ℚ) < (m : ℚ) := by exact_mod_cast hm
  have key := pyRound_dist ((v : ℚ) / (m : ℚ)) z
  have goalQ : |((pyRound ((v : ℚ) / (m : ℚ)) * m - v : ℤ) : ℚ)| ≤
      |((z * m - v : ℤ) : ℚ)| := by
    push_cast
    have e1 : (pyRound ((v : ℚ) / (m : ℚ)) : ℚ) * m - v =
        ((pyRound ((v : ℚ) / (m : ℚ)) : ℚ) - (v : ℚ) / (m : ℚ)) * m := by
      field_simp
    have e2 : (z : ℚ) * m - v = ((z : ℚ) - (v : ℚ) / (m : ℚ)) * m := by
      field_simp
    rw [e1, e2, abs_mul, abs_mul, abs_of_pos hm0]
    exact mul_le_mul_of_nonneg_right key (le_of_lt hm0)
  exact_mod_cast goalQ

theorem growPowerAux_ge (fuel : ℕ) : ∀ (v p : ℤ), 0 < p →
    v ≤ 2 ^ fuel * p → v ≤ growPowerAux fuel v p := by
  induction fuel with
  | zero => intro v p _ h; simpa [growPowerAux] using h
  | succ n ih =>
    intro v p hp h
    rw [growPowerAux]
    split_ifs with hcond
    · exact ih v (2 * p) (by omega) (by rw [pow_succ] at h; linarith)
    · omega

theorem growPowerAux_pow (fuel : ℕ) : ∀ (v p : ℤ),
    ∃ k : ℕ, growPowerAux fuel v p = 2 ^ k * p := by
  induction fuel with
  | zero => intro v p; exact ⟨0, by simp [growPowerAux]⟩
  | succ n ih =>
    intro v p
    rw [growPowerAux]
    split_ifs with hcond
    · obtain ⟨k, hk⟩ := ih v (2 * p)
      exact ⟨k + 1, by rw [hk]; ring⟩
    · exact ⟨0, by ring⟩

theorem growPowerAux_half (fuel : ℕ) : ∀ (v p : ℤ),
    growPowerAux fuel v p = p ∨ growPowerAux fuel v p / 2 < v := by
  induction fuel with
  | zero => intro v p; left; rfl
  | succ n ih =>
    intro v p
    rw [growPowerAux]
    split_ifs with hcond
    · rcases ih v (2 * p) with h | h
      · right; rw [h]; omega
      · right; exact h
    · left; rfl

/-- The loop result for `1 ≤ v`: a power of two covering `v` whose half is
strictly below `v`. -/
theorem growPower_spec (v : ℤ) (hv : 1 ≤ v) :
    ∃ k : ℕ, growPower v = 2 ^ k ∧ v ≤ 2 ^ k ∧ (2 : ℤ) ^ k / 2 < v := by
  have h1 : (v.toNat : ℤ) = v := Int.toNat_of_nonneg (by omega)
  have h2 : v.toNat < 2 ^ v.toNat := Nat.lt_two_pow v.toNat
  have h3 : v < (2 : ℤ) ^ v.toNat := by rw [← h1]; exact_mod_cast h2
  have hgpA : growPower v = growPowerAux v.toNat v 1 := rfl
  obtain ⟨k, hk⟩ := growPowerAux_pow v.toNat v 1
  have hge : v ≤ growPowerAux v.toNat v 1 :=
    growPowerAux_ge v.toNat v 1 one_pos (by linarith)
  have hhalf := growPowerAux_half v.toNat v 1
  refine ⟨k, by rw [hgpA, hk]; ring, by omega, ?_⟩
  rcases hhalf with h | h
  · rw [h] at hk
    have h4 : (2 : ℤ) ^ k = 1 := by omega
    rw [h4]; omega
  · rw [hk] at h; omega

/-- Branch analysis of `round_to_power_of_two` for positive input: the result
is the covering power when it is strictly nearer, else the half. -/
theorem round_to_power_of_two_branches (v : ℤ) (hv : 1 ≤ v) :
    ∃ k : ℕ, v ≤ 2 ^ k ∧ (2 : ℤ) ^ k / 2 < v ∧
      ((2 ^ k - v < v - (2 : ℤ) ^ k / 2 ∧ round_to_power_of_two v = 2 ^ k) ∨
        (¬ (2 ^ k - v < v - (2 : ℤ) ^ k / 2) ∧
          round_to_power_of_two v = (2 : ℤ) ^ k / 2)) := by
  obtain ⟨k, hgp, hge, hhalf⟩ := growPower_spec v hv
  refine ⟨k, hge, hhalf, ?_⟩
  simp only [round_to_power_of_two, if_neg (show ¬ v ≤ 0 by omega), hgp]
  split_ifs with h1 h2
  · exact Or.inl ⟨h1, rfl⟩
  · exact Or.inr ⟨h1, rfl⟩
  · -- the half can be zero only for the power 1, whose branch condition holds
    exfalso
    have h1pow : (0 : ℤ) < 2 ^ k := pow_pos (by norm_num) k
    have hk0 : (2 : ℤ) ^ k / 2 = 0 := by omega
    have hk1 : (2 : ℤ) ^ k / 2 = 0 → (2 : ℤ) ^ k ≤ 1 := by
      intro h
      by_contra hgt
      have : (2 : ℤ) ≤ 2 ^ k := by omega
      omega
    have := hk1 hk0
    omega

/-- `(2 : ℤ) ^ k / 2 = 2 ^ (k - 1)` for `1 ≤ k`. -/
theorem two_pow_div_two (k : ℕ) (hk : 1 ≤ k) :
    (2 : ℤ) ^ k / 2 = 2 ^ (k - 1) := by
  have hsplit : (2 : ℤ) ^ k = 2 ^ (k - 1) * 2 := by
    rw [← pow_succ]
    congr 1
    omega
  rw [hsplit]
  exact Int.mul_ediv_cancel _ (by norm_num)

/-- Nearest-power property: `round_to_power_of_two` returns a power of two at
minimal distance from the input. -/
theorem round_to_power_of_two_nearest (v : ℤ) (hv : 1 ≤ v) :
    (∃ k : ℕ, round_to_power_of_two v = 2 ^ k) ∧
      ∀ j : ℕ, |round_to_power_of_two v - v| ≤ |(2 : ℤ) ^ j - v| := by
  obtain ⟨k, hge, hhalf, hres⟩ := round_to_power_of_two_branches v hv
  have hk1 : 1 ≤ k ∨ (k = 0 ∧ v = 1) := by
    rcases Nat.eq_zero_or_pos k with h0 | h1
    · subst h0
      right
      constructor
      · rfl
      · simp at hge hhalf
        omega
    · left; omega
  have hcases : ∀ j : ℕ, (2 : ℤ) ^ k ≤ 2 ^ j ∨ (2 : ℤ) ^ j ≤ 2 ^ k / 2 := by
    intro j
    rcases le_or_lt k j with h | h
    · left; exact pow_le_pow_right₀ (by norm_num) h
    · right
      have hk : 1 ≤ k := by omega
      rw [two_pow_div_two k hk]
      exact pow_le_pow_right₀ (by norm_num) (by omega)
  constructor
  · rcases hres with ⟨_, h⟩ | ⟨hc, h⟩
    · exact ⟨k, h⟩
    · rcases hk1 with hk | ⟨hk0, hv1⟩
      · exact ⟨k - 1, by rw [h, two_pow_div_two k hk]⟩
      · exfalso
        subst hk0 hv1
        simp at hc
  · intro j
    have hj1 : (2 : ℤ) ^ j - v ≤ |(2 : ℤ) ^ j - v| := le_abs_self _
    have hj2 : v - 2 ^ j ≤ |(2 : ℤ) ^ j - v| := by
      rw [abs_sub_comm]; exact le_abs_self _
    rcases hres with ⟨hc, h⟩ | ⟨hc, h⟩ <;> rw [h]
    · rw [abs_of_nonneg (by omega)]
      rcases hcases j with hcj | hcj <;> omega
    · rw [abs_sub_comm, abs_of_nonneg (by omega)]
      rcases hcases j with hcj | hcj <;> omega

/-- `round_to_power_of_two` always returns a positive value. -/
theorem round_to_power_of_two_pos (v : ℤ) :
    1 ≤ round_to_power_of_two v := by
  rcases le_or_lt v 0 with h | h
  · rw [round_to_power_of_two, if_pos h]
  · obtain ⟨k, hge, hhalf, hres⟩ := round_to_power_of_two_branches v (by omega)
    rcases hres with ⟨_, hr⟩ | ⟨hc, hr⟩
    · rw [hr]
      have hp : (0 : ℤ) < 2 ^ k := pow_pos (by norm_num) k
      omega
    · rw [hr]
      have hk1 : 1 ≤ k := by
        by_contra h0
        have hk0 : k = 0 := by omega
        subst hk0
        simp at hc
        omega
      rw [two_pow_div_two k hk1]
      have hp : (0 : ℤ) < 2 ^ (k - 1) := pow_pos (by norm_num) (k - 1)
      omega

/-- For inputs at least 7 the rounded power is at least 8 (used for the
positivity analysis of `auto_suggest_size`). -/
theorem round_to_power_of_two_ge_eight (v : ℤ) (hv : 7 ≤ v) :
    8 ≤ round_to_power_of_two v := by
  rcases lt_or_le v 9 with h9 | h9
  · interval_cases v <;> decide
  · obtain ⟨k, hge, hhalf, hres⟩ := round_to_power_of_two_branches v (by omega)
    have hk4 : 4 ≤ k := by
      by_contra h0
      have hle : (2 : ℤ) ^ k ≤ 2 ^ 3 := pow_le_pow_right₀ (by norm_num) (by omega)
      norm_num at hle
      omega
    have h16 : (16 : ℤ) ≤ 2 ^ k := by
      calc (16 : ℤ) = 2 ^ 4 := by norm_num
      _ ≤ 2 ^ k := pow_le_pow_right₀ (by norm_num) hk4
    have h8 : (8 : ℤ) ≤ 2 ^ k / 2 := by
      rw [two_pow_div_two k (by omega)]
      calc (8 : ℤ) = 2 ^ 3 := by norm_num
      _ ≤ 2 ^ (k - 1) := pow_le_pow_right₀ (by norm_num) (by omega)
    rcases hres with ⟨_, hr⟩ | ⟨_, hr⟩ <;> rw [hr] <;> omega

/-- The scaled short side `int(a * (t / b))`, floored at 1, stays within the
target when `a ≤ b` (the downscale branches of the fit functions). -/
theorem scaled_side_le (a b t : ℕ) (hab : a ≤ b) (hbt : t < b) (ht : 1 ≤ t) :
    max 1 (pyInt ((a : ℚ) * ((t : ℚ) / (b : ℚ)))).toNat ≤ t := by
  have hb0 : (0 : ℚ) < (b : ℚ) := by
    have : 0 < b := by omega
    exact_mod_cast this
  have habq : (a : ℚ) ≤ (b : ℚ) := by exact_mod_cast hab
  have htq : (0 : ℚ) ≤ (t : ℚ) := by positivity
  have hq : (a : ℚ) * ((t : ℚ) / (b : ℚ)) ≤ (t : ℚ) := by
    rw [← mul_div_assoc, div_le_iff₀ hb0]
    nlinarith
  have hfl : pyInt ((a : ℚ) * ((t : ℚ) / (b : ℚ))) ≤ (t : ℤ) := by
    rw [pyInt, ratFloor_eq_intFloor]
    calc ⌊(a : ℚ) * ((t : ℚ) / (b : ℚ))⌋ ≤ ⌊(t : ℚ)⌋ := Int.floor_le_floor hq
    _ = (t : ℤ) := Int.floor_natCast t
  have h2 : (pyInt ((a : ℚ) * ((t : ℚ) / (b : ℚ)))).toNat ≤ t :=
    Int.toNat_le.mpr hfl
  exact Nat.max_le.mpr ⟨ht, h2⟩

/-- `resize_lanczos_fit_long` is the identity when the image already fits. -/
theorem resize_fit_long_id (img : Img) (t : ℕ)
    (h : max img.width img.height ≤ t) :
    resize_lanczos_fit_long img t = img := by
  rw [resize_lanczos_fit_long, if_pos h]

/-- Both dimensions fit within the target after `resize_lanczos_fit_long`. -/
theorem resize_fit_long_le (img : Img) (t : ℕ) (ht : 1 ≤ t) :
    (resize_lanczos_fit_long img t).width ≤ t ∧
      (resize_lanczos_fit_long img t).height ≤ t := by
  rw [resize_lanczos_fit_long]
  split_ifs with h1 h2
  · exact ⟨le_trans (le_max_left _ _) h1, le_trans (le_max_right _ _) h1⟩
  · have hw : t < img.width := by
      have h3 := not_le.mp h1
      omega
    refine ⟨le_refl t, ?_⟩
    exact scaled_side_le img.height img.width t h2 (by omega) ht
  · have hh : t < img.height := by
      have h3 := not_le.mp h1
      omega
    refine ⟨?_, le_refl t⟩
    exact scaled_side_le img.width img.height t (by omega) (by omega) ht

/-- When the image is strictly larger than the target, the long side after
`resize_lanczos_fit_long` equals the target exactly. -/
theorem resize_fit_long_exact (img : Img) (t : ℕ) (ht : 1 ≤ t)
    (hgt : t < max img.width img.height) :
    max (resize_lanczos_fit_long img t).width
      (resize_lanczos_fit_long img t).height = t := by
  have hle := resize_fit_long_le img t ht
  rw [resize_lanczos_fit_long] at hle ⊢
  split_ifs at hle ⊢ with h1 h2
  · omega
  · simp only [resize_lanczos_to_box] at hle ⊢
    omega
  · simp only [resize_lanczos_to_box] at hle ⊢
    omega

/-- Success case of `pad_to_square`: under the invariant the result is a
side-by-side canvas with the source centered and the border transparent. -/
theorem pad_to_square_ok (img : Img) (side : ℕ) (hw : img.width ≤ side)
    (hh : img.height ≤ side) :
    ∃ out, pad_to_square img side = .ok out ∧
      out.width = side ∧ out.height = side ∧
      (∀ x y, x < img.width → y < img.height →
        out.pixel ((side - img.width) / 2 + x) ((side - img.height) / 2 + y) =
          img.pixel x y) ∧
      (∀ X Y, X < side → Y < side →
        (X < (side - img.width) / 2 ∨
          (side - img.width) / 2 + img.width ≤ X ∨
          Y < (side - img.height) / 2 ∨
          (side - img.height) / 2 + img.height ≤ Y) →
        out.pixel X Y = transparentPix) := by
  rw [pad_to_square]
  rw [if_neg (by push_neg; exact ⟨hw, hh⟩)]
  by_cases heq : img.width = side ∧ img.height = side
  · rw [if_pos heq]
    refine ⟨img, rfl, heq.1, heq.2, ?_, ?_⟩
    · intro x y hx hy
      rw [heq.1, heq.2, Nat.sub_self]
      norm_num
    · intro X Y hX hY hdisj
      exfalso
      rw [heq.1, heq.2, Nat.sub_self] at hdisj
      simp only [Nat.zero_div, Nat.zero_add] at hdisj
      omega
  · rw [if_neg heq]
    refine ⟨_, rfl, rfl, rfl, ?_, ?_⟩
    · intro x y hx hy
      have hcond : (side - img.width) / 2 ≤ (side - img.width) / 2 + x ∧
          (side - img.width) / 2 + x < (side - img.width) / 2 + img.width ∧
          (side - img.height) / 2 ≤ (side - img.height) / 2 + y ∧
          (side - img.height) / 2 + y < (side - img.height) / 2 + img.height := by
        omega
      simp only [if_pos hcond]
      congr 1 <;> omega
    · intro X Y hX hY hdisj
      have hcond : ¬ ((side - img.width) / 2 ≤ X ∧
          X < (side - img.width) / 2 + img.width ∧
          (side - img.height) / 2 ≤ Y ∧
          Y < (side - img.height) / 2 + img.height) := by
        omega
      simp only [if_neg hcond]

/-- `pad_to_square` rejects any image violating the sizing invariant. -/
theorem pad_to_square_err (img : Img) (side : ℕ)
    (h : side < img.width ∨ side < img.height) :
    pad_to_square img side = .error "pad_to_square invariant violated" := by
  rw [pad_to_square, if_pos (by omega)]

/-- On the default `allow_crop = false` path `smart_square` always succeeds
with an exactly `side × side` result (for a positive side). -/
theorem smart_square_ok (img : Img) (side : ℕ) (us : Bool) (hs : 1 ≤ side) :
    ∃ out, smart_square img side us false = .ok out ∧
      out.width = side ∧ out.height = side := by
  rw [smart_square]
  by_cases h1 : img.width = side ∧ img.height = side
  · rw [if_pos h1]
    exact ⟨img, rfl, h1.1, h1.2⟩
  · rw [if_neg h1]
    by_cases h2 : aspect_delta img.width img.height < 1/10
    · rw [if_pos h2]
      by_cases h3 : side < max img.width img.height
      · rw [if_pos h3]
        have hle := resize_fit_long_le img side hs
        obtain ⟨out, heq, hww, hhh, _, _⟩ :=
          pad_to_square_ok (resize_lanczos_fit_long img side) side hle.1 hle.2
        exact ⟨out, heq, hww, hhh⟩
      · rw [if_neg h3]
        have hmax := not_lt.mp h3
        obtain ⟨out, heq, hww, hhh, _, _⟩ :=
          pad_to_square_ok img side (by omega) (by omega)
        exact ⟨out, heq, hww, hhh⟩
    · rw [if_neg h2]
      have hle := resize_fit_long_le img side hs
      obtain ⟨out, heq, hww, hhh, _, _⟩ :=
        pad_to_square_ok (resize_lanczos_fit_long img side) side hle.1 hle.2
      exact ⟨out, heq, hww, hhh⟩

/-- On the default `allow_crop = false` path `fit_to_size` returns exactly
the target dimensions. -/
theorem fit_to_size_dims (img : Img) (tw th : ℕ) :
    (fit_to_size img tw th false).width = tw ∧
      (fit_to_size img tw th false).height = th := by
  rw [fit_to_size]
  by_cases h1 : img.width = tw ∧ img.height = th
  · rw [if_pos h1]
    exact ⟨h1.1, h1.2⟩
  · rw [if_neg h1]
    exact ⟨rfl, rfl⟩

/-- A tiny opaque RGBA test image. -/
def unitImg : Img := ⟨1, 1, "RGBA", fun _ _ => ⟨10, 20, 30, 255⟩⟩

/-- A wide opaque RGBA test image. -/
def wideImg : Img := ⟨3, 2, "RGBA", fun _ _ => ⟨1, 2, 3, 255⟩⟩

/-- C1: for `w ≤ side` and `h ≤ side`, `pad_to_square` (inpaint disabled)
returns an exactly `side × side` image with the source pixels unchanged at
offset `((side-w)/2, (side-h)/2)` on an otherwise fully transparent canvas;
for `w > side` or `h > side` it raises the invariant violation instead. -/
theorem C1_pad_to_square_contract (img : Img) (side : ℕ) :
    (img.width ≤ side ∧ img.height ≤ side →
      ∃ out, pad_to_square img side = .ok out ∧
        out.width = side ∧ out.height = side ∧
        (∀ x y, x < img.width → y < img.height →
          out.pixel ((side - img.width) / 2 + x) ((side - img.height) / 2 + y) =
            img.pixel x y) ∧
        (∀ X Y, X < side → Y < side →
          (X < (side - img.width) / 2 ∨
            (side - img.width) / 2 + img.width ≤ X ∨
            Y < (side - img.height) / 2 ∨
            (side - img.height) / 2 + img.height ≤ Y) →
          out.pixel X Y = transparentPix)) ∧
    (side < img.width ∨ side < img.height →
      pad_to_square img side = .error "pad_to_square invariant violated") :=
  ⟨fun h => pad_to_square_ok img side h.1 h.2, pad_to_square_err img side⟩

/-- Witness for C1 at concrete inputs: a 1×1 image padded into a 4×4 canvas,
and a 3×2 image rejected by a 1×1 target. -/
theorem C1_pad_to_square_contract_witness :
    (∃ out, pad_to_square unitImg 4 = .ok out ∧
      out.width = 4 ∧ out.height = 4 ∧
      (∀ x y, x < unitImg.width → y < unitImg.height →
        out.pixel ((4 - unitImg.width) / 2 + x) ((4 - unitImg.height) / 2 + y) =
          unitImg.pixel x y) ∧
      (∀ X Y, X < 4 → Y < 4 →
        (X < (4 - unitImg.width) / 2 ∨
          (4 - unitImg.width) / 2 + unitImg.width ≤ X ∨
          Y < (4 - unitImg.height) / 2 ∨
          (4 - unitImg.height) / 2 + unitImg.height ≤ Y) →
        out.pixel X Y = transparentPix)) ∧
    pad_to_square wideImg 1 = .error "pad_to_square invariant violated" :=
  ⟨(C1_pad_to_square_contract unitImg 4).1 ⟨by decide, by decide⟩,
    (C1_pad_to_square_contract wideImg 1).2 (Or.inl (by decide))⟩

/-- C2: with `allow_crop = false`, `fit_to_size` returns exactly
`(target_w, target_h)` and `smart_square` returns exactly `side × side`, for
any positive input dimensions and positive targets; the crop branch is never
taken on this default path. -/
theorem C2_default_path_dims (img : Img) (tw th side : ℕ) (us : Bool)
    (_hw : 1 ≤ img.width) (_hh : 1 ≤ img.height) (_htw : 1 ≤ tw)
    (_hth : 1 ≤ th) (hs : 1 ≤ side) :
    ((fit_to_size img tw th false).width = tw ∧
      (fit_to_size img tw th false).height = th) ∧
    ∃ out, smart_square img side us false = .ok out ∧
      out.width = side ∧ out.height = side :=
  ⟨fit_to_size_dims img tw th, smart_square_ok img side us hs⟩

/-- Witness for C2 at concrete inputs. -/
theorem C2_default_path_dims_witness :
    (((fit_to_size wideImg 5 7 false).width = 5 ∧
      (fit_to_size wideImg 5 7 false).height = 7) ∧
    ∃ out, smart_square wideImg 4 false false = .ok out ∧
      out.width = 4 ∧ out.height = 4) :=
  C2_default_path_dims wideImg 5 7 4 false (by decide) (by decide) (by decide)
    (by decide) (by decide)

/-- C3: `resize_lanczos_fit_long` is the identity when the long side already
fits (never upscales); otherwise the long side of the result equals the
target exactly, and in all cases both result dimensions are at most the
target, establishing the sizing invariant. -/
theorem C3_fit_long_contract (img : Img) (target_long : ℕ)
    (ht : 1 ≤ target_long) :
    (max img.width img.height ≤ target_long →
      resize_lanczos_fit_long img target_long = img) ∧
    (target_long < max img.width img.height →
      max (resize_lanczos_fit_long img target_long).width
        (resize_lanczos_fit_long img target_long).height = target_long) ∧
    (resize_lanczos_fit_long img target_long).width ≤ target_long ∧
    (resize_lanczos_fit_long img target_long).height ≤ target_long :=
  ⟨resize_fit_long_id img target_long,
    fun h => resize_fit_long_exact img target_long ht h,
    (resize_fit_long_le img target_long ht).1,
    (resize_fit_long_le img target_long ht).2⟩

/-- Witness for C3 at a concrete input. -/
theorem C3_fit_long_contract_witness :
    (max wideImg.width wideImg.height ≤ 2 →
      resize_lanczos_fit_long wideImg 2 = wideImg) ∧
    (2 < max wideImg.width wideImg.height →
      max (resize_lanczos_fit_long wideImg 2).width
        (resize_lanczos_fit_long wideImg 2).height = 2) ∧
    (resize_lanczos_fit_long wideImg 2).width ≤ 2 ∧
    (resize_lanczos_fit_long wideImg 2).height ≤ 2 :=
  C3_fit_long_contract wideImg 2 (by decide)

/-- Counterexample for C4's tie-break direction: at the exact tie 96 (halfway
between 64 and 128) the code returns the smaller power 64, not 128. -/
theorem C4_tie_break_counterexample :
    round_to_power_of_two 96 = 64 ∧ round_to_power_of_two 96 ≠ 128 := by
  constructor <;> decide

/-- C4 (amended): for every positive value, `round_to_power_of_two` returns
a power of two numerically closest to the value, and on an exact tie between
the covering power and its half it returns the smaller (the half-power);
in particular 100 ↦ 128, 65 ↦ 64, and the tie 96 ↦ 64. -/
theorem C4_round_to_power_of_two_nearest (v : ℤ) (hv : 1 ≤ v) :
    (∃ k : ℕ, round_to_power_of_two v = 2 ^ k) ∧
    (∀ j : ℕ, |round_to_power_of_two v - v| ≤ |(2 : ℤ) ^ j - v|) ∧
    round_to_power_of_two 100 = 128 ∧
    round_to_power_of_two 65 = 64 ∧
    round_to_power_of_two 96 = 64 := by
  obtain ⟨hpow, hmin⟩ := round_to_power_of_two_nearest v hv
  exact ⟨hpow, hmin, by decide, by decide, by decide⟩

/-- Witness for C4's amended claim at `v = 100`. -/
theorem C4_round_to_power_of_two_nearest_witness :
    (∃ k : ℕ, round_to_power_of_two 100 = 2 ^ k) ∧
    (∀ j : ℕ, |round_to_power_of_two 100 - 100| ≤ |(2 : ℤ) ^ j - 100|) ∧
    round_to_power_of_two 100 = 128 ∧
    round_to_power_of_two 65 = 64 ∧
    round_to_power_of_two 96 = 64 :=
  C4_round_to_power_of_two_nearest 100 (by decide)

/-- `round(20 / 8)` ties at 2.5 and Python's half-to-even rounding picks 2. -/
theorem round_to_multiple_ex1 : round_to_multiple 20 8 = 16 := by
  rw [round_to_multiple]
  norm_num [pyRound, ratFloor_eq_intFloor]

/-- `round(4 / 8)` ties at 0.5 and Python's half-to-even rounding picks 0. -/
theorem round_to_multiple_ex2 : round_to_multiple 4 8 = 0 := by
  rw [round_to_multiple]
  norm_num [pyRound, ratFloor_eq_intFloor]

/-- Counterexample for C5: the code rounds halves to even, not away from
zero, so 20 ↦ 16 (not 24) and 4 ↦ 0 (not 8). -/
theorem C5_half_away_counterexample :
    round_to_multiple 20 8 = 16 ∧ round_to_multiple 20 8 ≠ 24 ∧
    round_to_multiple 4 8 = 0 ∧ round_to_multiple 4 8 ≠ 8 := by
  refine ⟨round_to_multiple_ex1, ?_, round_to_multiple_ex2, ?_⟩
  · rw [round_to_multiple_ex1]; decide
  · rw [round_to_multiple_ex2]; decide

/-- C5 (amended): for positive value and positive multiple,
`round_to_multiple` returns a nearest multiple of the factor, breaking exact
ties toward the even quotient (Python `round`, half-to-even); in particular
`round_to_multiple(20, 8) = 16` and `round_to_multiple(4, 8) = 0`. -/
theorem C5_round_to_multiple_nearest (v m : ℤ) (hv : 1 ≤ v) (hm : 1 ≤ m) :
    (∃ k : ℤ, round_to_multiple v m = k * m) ∧
    (∀ z : ℤ, |round_to_multiple v m - v| ≤ |z * m - v|) ∧
    round_to_multiple 20 8 = 16 ∧ round_to_multiple 4 8 = 0 := by
  refine ⟨?_, round_to_multiple_nearest v m hv hm,
    round_to_multiple_ex1, round_to_multiple_ex2⟩
  rw [round_to_multiple, if_neg (by omega)]
  exact ⟨pyRound ((v : ℚ) / (m : ℚ)), rfl⟩

/-- Witness for C5's amended claim at `(v, m) = (20, 8)`. -/
theorem C5_round_to_multiple_nearest_witness :
    (∃ k : ℤ, round_to_multiple 20 8 = k * 8) ∧
    (∀ z : ℤ, |round_to_multiple 20 8 - 20| ≤ |z * 8 - 20|) ∧
    round_to_multiple 20 8 = 16 ∧ round_to_multiple 4 8 = 0 :=
  C5_round_to_multiple_nearest 20 8 (by decide) (by decide)

/-- Python rounding never goes below the floor. -/
theorem pyRound_ge_floor (q : ℚ) : ⌊q⌋ ≤ pyRound q := by
  simp only [pyRound, ratFloor_eq_intFloor]
  split_ifs <;> omega

/-- Values at least 8 stay at least 8 under `round_to_multiple · 8`. -/
theorem round_to_multiple_ge8 (x : ℤ) (hx : 8 ≤ x) :
    8 ≤ round_to_multiple x 8 := by
  rw [round_to_multiple, if_neg (by omega)]
  push_cast
  have h1 : (1 : ℤ) ≤ ⌊(x : ℚ) / 8⌋ := by
    rw [Int.le_floor, le_div_iff₀ (by norm_num)]
    norm_num
    exact_mod_cast hx
  have h2 : ⌊(x : ℚ) / 8⌋ ≤ pyRound ((x : ℚ) / 8) := pyRound_ge_floor _
  have h3 : (1 : ℤ) ≤ pyRound ((x : ℚ) / 8) := le_trans h1 h2
  have h4 := mul_le_mul_of_nonneg_right h3 (by norm_num : (0 : ℤ) ≤ 8)
  linarith

/-- For a long side of at least 7, `auto_suggest_size` yields positive
dimensions. -/
theorem auto_suggest_size_pos (w h : ℤ) (hlong : 7 ≤ max w h) :
    1 ≤ (auto_suggest_size w h true).1 ∧
      1 ≤ (auto_suggest_size w h true).2 := by
  rw [auto_suggest_size]
  by_cases hdeg : w ≤ 0 ∨ h ≤ 0
  · rw [if_pos hdeg]
    norm_num
  · rw [if_neg hdeg]
    simp only [reduceIte]
    have h8 : 8 ≤ round_to_power_of_two (max w h) :=
      round_to_power_of_two_ge_eight _ hlong
    by_cases hcmp : h ≤ w
    · rw [if_pos hcmp]
      exact ⟨le_trans (by norm_num) (round_to_multiple_ge8 _ h8),
        le_trans (by norm_num) (round_to_multiple_ge8 _ (le_max_left _ _))⟩
    · rw [if_neg hcmp]
      exact ⟨le_trans (by norm_num) (round_to_multiple_ge8 _ (le_max_left _ _)),
        le_trans (by norm_num) (round_to_multiple_ge8 _ h8)⟩

/-- In `power_of_two` mode the target is always positive (long side rounds to
a positive power, short side is floored at 8), for every input. -/
theorem calculate_target_size_pow2_pos (w h m : ℤ) :
    ∃ a b, calculate_target_size w h "power_of_two" none none m = .ok (a, b) ∧
      1 ≤ a ∧ 1 ≤ b := by
  rw [calculate_target_size, if_neg (by decide), if_pos rfl]
  by_cases hcmp : h ≤ w
  · rw [if_pos hcmp]
    exact ⟨_, _, rfl, round_to_power_of_two_pos _,
      le_trans (by norm_num) (le_max_left 8 _)⟩
  · rw [if_neg hcmp]
    exact ⟨_, _, rfl, le_trans (by norm_num) (le_max_left 8 _),
      round_to_power_of_two_pos _⟩
  all_goals (intro cw ch hcw hch; exact Option.noConfusion hcw)

/-- Counterexample for C6: the `(256, 256)` degenerate fallback exists only
in `auto` mode (`power_of_two` maps a 0×0 input to `(1, 8)`), and `auto` mode
can return a zero dimension for positive input (1×1 maps to `(0, 8)`). -/
theorem C6_counterexample :
    calculate_target_size 0 0 "power_of_two" none none 8 = .ok (1, 8) ∧
    ((1 : ℤ), (8 : ℤ)) ≠ ((256 : ℤ), (256 : ℤ)) ∧
    calculate_target_size 1 1 "auto" none none 8 = .ok (0, 8) ∧
    ¬ (1 : ℤ) ≤ 0 := by
  refine ⟨?_, by decide, ?_, by decide⟩
  · rw [calculate_target_size, if_neg (by decide), if_pos rfl]
    norm_num [round_to_power_of_two, growPower, growPowerAux, pyRound,
      ratFloor_eq_intFloor]
    all_goals (intro cw ch hcw hch; exact Option.noConfusion hcw)
  · rw [calculate_target_size, if_neg (by decide), if_neg (by decide),
      if_neg (by decide), auto_suggest_size]
    norm_num [round_to_power_of_two, growPower, growPowerAux, pyRound,
      round_to_multiple, ratFloor_eq_intFloor]
    all_goals (intro cw ch hcw hch; exact Option.noConfusion hcw)

/-- C6 (amended): the `(256, 256)` degenerate fallback applies in `auto` mode
(the default); `power_of_two` mode always returns positive dimensions; `auto`
mode returns positive dimensions whenever the long side is at least 7 (for
smaller inputs a dimension can round to 0). -/
theorem C6_target_size_invariant (w h m : ℤ) :
    ((w ≤ 0 ∨ h ≤ 0) →
      calculate_target_size w h "auto" none none m = .ok (256, 256)) ∧
    (∃ a b, calculate_target_size w h "power_of_two" none none m = .ok (a, b) ∧
      1 ≤ a ∧ 1 ≤ b) ∧
    (7 ≤ max w h →
      ∃ a b, calculate_target_size w h "auto" none none m = .ok (a, b) ∧
        1 ≤ a ∧ 1 ≤ b) := by
  refine ⟨?_, calculate_target_size_pow2_pos w h m, ?_⟩
  · intro hdeg
    rw [calculate_target_size, if_neg (by decide), if_neg (by decide),
      if_neg (by decide), auto_suggest_size, if_pos hdeg]
    all_goals (intro cw ch hcw hch; exact Option.noConfusion hcw)
  · intro hlong
    have hpos := auto_suggest_size_pos w h hlong
    rw [calculate_target_size, if_neg (by decide), if_neg (by decide),
      if_neg (by decide)]
    refine ⟨_, _, rfl, hpos.1, hpos.2⟩
    all_goals (intro cw ch hcw hch; exact Option.noConfusion hcw)

/-- Witness for C6's amended claim at concrete inputs. -/
theorem C6_target_size_invariant_witness :
    calculate_target_size 0 5 "auto" none none 8 = .ok (256, 256) ∧
    (∃ a b, calculate_target_size 3 4 "power_of_two" none none 8 = .ok (a, b) ∧
      1 ≤ a ∧ 1 ≤ b) ∧
    (∃ a b, calculate_target_size 10 9 "auto" none none 8 = .ok (a, b) ∧
      1 ≤ a ∧ 1 ≤ b) :=
  ⟨(C6_target_size_invariant 0 5 8).1 (Or.inl (by decide)),
    (C6_target_size_invariant 3 4 8).2.1,
    (C6_target_size_invariant 10 9 8).2.2 (by decide)⟩

/-- A fully opaque 100×100 RGBA test image. -/
def img100 : Img := ⟨100, 100, "RGBA", fun _ _ => ⟨0, 0, 0, 255⟩⟩

/-- C7: `is_alpha_bbox_meaningful` holds exactly when the trimmed-area part
`1 - bbox_area/original_area` reaches 5% or a side shrinks below 95%; in
particular a 100×100 image trimmed to 99×100 is not meaningful while a trim
to 60×60 is. -/
theorem C7_is_meaningful_iff (img : Img) (bbox : ℤ × ℤ × ℤ × ℤ)
    (_hw : 1 ≤ img.width) (_hh : 1 ≤ img.height) :
    (is_alpha_bbox_meaningful img bbox (1/20) = true ↔
      ((1/20 : ℚ) ≤
          1 - ((bbox.2.2.1 - bbox.1 + 1 : ℤ) : ℚ) *
            ((bbox.2.2.2 - bbox.2.1 + 1 : ℤ) : ℚ) /
            ((img.width : ℚ) * (img.height : ℚ)) ∨
        ((bbox.2.2.1 - bbox.1 + 1 : ℤ) : ℚ) / (img.width : ℚ) < 19/20 ∨
        ((bbox.2.2.2 - bbox.2.1 + 1 : ℤ) : ℚ) / (img.height : ℚ) < 19/20)) ∧
    is_alpha_bbox_meaningful img100 (0, 0, 98, 99) (1/20) = false ∧
    is_alpha_bbox_meaningful img100 (20, 20, 79, 79) (1/20) = true := by
  refine ⟨?_, ?_, ?_⟩
  · simp [is_alpha_bbox_meaningful, or_assoc]
  · simp only [is_alpha_bbox_meaningful, img100]
    norm_num
  · simp only [is_alpha_bbox_meaningful, img100]
    norm_num

/-- Witness for C7 at a concrete image and bounding box. -/
theorem C7_is_meaningful_iff_witness :
    (is_alpha_bbox_meaningful img100 (0, 0, 98, 99) (1/20) = true ↔
      ((1/20 : ℚ) ≤
          1 - (((98 : ℤ) - 0 + 1 : ℤ) : ℚ) * (((99 : ℤ) - 0 + 1 : ℤ) : ℚ) /
            ((img100.width : ℚ) * (img100.height : ℚ)) ∨
        (((98 : ℤ) - 0 + 1 : ℤ) : ℚ) / (img100.width : ℚ) < 19/20 ∨
        (((99 : ℤ) - 0 + 1 : ℤ) : ℚ) / (img100.height : ℚ) < 19/20)) ∧
    is_alpha_bbox_meaningful img100 (0, 0, 98, 99) (1/20) = false ∧
    is_alpha_bbox_meaningful img100 (20, 20, 79, 79) (1/20) = true :=
  C7_is_meaningful_iff img100 (0, 0, 98, 99) (by decide) (by decide)

/-- Byte-valued channels are fixed points of the clip-and-truncate byte
conversion. -/
theorem clampChan_byte (n : ℕ) (hn : n ≤ 255) : clampChan (n : ℚ) = n := by
  rw [clampChan, clipQ, pyInt, ratFloor_eq_intFloor]
  have h1 : (0 : ℚ) ≤ (n : ℚ) := by positivity
  have h2 : (n : ℚ) ≤ 255 := by exact_mod_cast hn
  rw [max_eq_right h1, min_eq_right h2, Int.floor_natCast]
  simp

/-- A fully opaque pixel is untouched by `unpremultiply_rgba`. -/
theorem unpremultiplyPix_opaque (p : Pix) (hr : p.r ≤ 255) (hg : p.g ≤ 255)
    (hb : p.b ≤ 255) (ha : p.a = 255) : unpremultiplyPix p = p := by
  obtain ⟨pr, pg, pb, pa⟩ := p
  simp only at hr hg hb ha
  subst ha
  rw [unpremultiplyPix]
  norm_num [clipQ]
  exact ⟨clampChan_byte pr hr, clampChan_byte pg hg, clampChan_byte pb hb⟩

/-- A fully transparent pixel trips the division guard and is untouched. -/
theorem unpremultiplyPix_clear (p : Pix) (ha : p.a = 0) :
    unpremultiplyPix p = p := by
  rw [unpremultiplyPix, ha]
  norm_num

/-- A premultiplied-looking pixel with colored RGB but zero alpha. -/
def premulImg : Img := ⟨1, 1, "RGBA", fun _ _ => ⟨200, 100, 50, 0⟩⟩

/-- Counterexample for C8: a zero-alpha pixel keeps its RGB values; the code
does not force them to (0, 0, 0). -/
theorem C8_alpha_zero_counterexample :
    (premulImg.pixel 0 0).a = 0 ∧
    ((unpremultiply_rgba premulImg).pixel 0 0).r = 200 ∧
    ((unpremultiply_rgba premulImg).pixel 0 0).r ≠ 0 := by
  have h : (unpremultiply_rgba premulImg).pixel 0 0 = ⟨200, 100, 50, 0⟩ := by
    rw [unpremultiply_rgba, if_neg (by decide)]
    exact unpremultiplyPix_clear _ rfl
  rw [h]
  exact ⟨rfl, rfl, by decide⟩

/-- C8 (amended): `unpremultiply_rgba` leaves every pixel with alpha 255
unchanged, and leaves every pixel with alpha 0 unchanged as well — the
division guard engages and the pixel (including its RGB) is not modified. -/
theorem C8_unpremultiply_guards (img : Img) (hm : img.mode = "RGBA")
    (x y : ℕ) (hr : (img.pixel x y).r ≤ 255) (hg : (img.pixel x y).g ≤ 255)
    (hb : (img.pixel x y).b ≤ 255) :
    ((img.pixel x y).a = 255 →
      (unpremultiply_rgba img).pixel x y = img.pixel x y) ∧
    ((img.pixel x y).a = 0 →
      (unpremultiply_rgba img).pixel x y = img.pixel x y) := by
  rw [unpremultiply_rgba, if_neg (by simp [hm])]
  exact ⟨fun ha => unpremultiplyPix_opaque _ hr hg hb ha,
    fun ha => unpremultiplyPix_clear _ ha⟩

/-- Witness for C8's amended claim at concrete opaque and clear pixels. -/
theorem C8_unpremultiply_guards_witness :
    (((unitImg.pixel 0 0).a = 255 →
      (unpremultiply_rgba unitImg).pixel 0 0 = unitImg.pixel 0 0) ∧
    ((unitImg.pixel 0 0).a = 0 →
      (unpremultiply_rgba unitImg).pixel 0 0 = unitImg.pixel 0 0)) ∧
    ((premulImg.pixel 0 0).a = 255 →
      (unpremultiply_rgba premulImg).pixel 0 0 = premulImg.pixel 0 0) ∧
    ((premulImg.pixel 0 0).a = 0 →
      (unpremultiply_rgba premulImg).pixel 0 0 = premulImg.pixel 0 0) :=
  ⟨C8_unpremultiply_guards unitImg rfl 0 0 (by decide) (by decide) (by decide),
    C8_unpremultiply_guards premulImg rfl 0 0 (by decide) (by decide)
      (by decide)⟩

/-- A plain RGB (no alpha channel) test image. -/
def rgbImg : Img := ⟨2, 2, "RGB", fun _ _ => ⟨5, 6, 7, 255⟩⟩

/-- C10: every alpha operation is a no-op at the public interface for
non-RGBA images: the three alpha fixers return the image unchanged and
`bbox_from_alpha` returns `none`, so a plain-RGB source passes the whole
alpha sub-pipeline without trim or pixel modification. -/
theorem C10_non_rgba_noop (img : Img) (hm : img.mode ≠ "RGBA") (r : ℕ)
    (rq : ℚ) :
    unpremultiply_rgba img = img ∧ defringe_alpha img r = img ∧
    smooth_alpha_edges img rq = img ∧ bbox_from_alpha img 5 = none := by
  refine ⟨?_, ?_, ?_, ?_⟩
  · rw [unpremultiply_rgba, if_pos hm]
  · rw [defringe_alpha, if_pos hm]
  · rw [smooth_alpha_edges, if_pos hm]
  · rw [bbox_from_alpha, if_pos hm]

/-- Witness for C10 on a concrete RGB image. -/
theorem C10_non_rgba_noop_witness :
    unpremultiply_rgba rgbImg = rgbImg ∧ defringe_alpha rgbImg 1 = rgbImg ∧
    smooth_alpha_edges rgbImg (1/2) = rgbImg ∧
    bbox_from_alpha rgbImg 5 = none :=
  C10_non_rgba_noop rgbImg (by decide) 1 (1/2)

/-- The error handler re-raises with the source path prefixed. -/
theorem failWith_snd (lj : Option String) (lo : Bool) (src : String)
    (s : FsState) (e : String) :
    (failWith lj lo src s e).2 = .error (src ++ ": " ++ e) := rfl

/-- The error handler never touches the destination file. -/
theorem failWith_dst (lj : Option String) (lo : Bool) (src : String)
    (s : FsState) (e : String) :
    (failWith lj lo src s e).1.dstWritten = s.dstWritten := by
  rw [failWith]
  split_ifs <;> rfl

/-- With a log path and a working sink the handler appends the error
record. -/
theorem failWith_log (lj : Option String) (lo : Bool) (src : String)
    (s : FsState) (e : String) (h : lj.isSome ∧ lo = true) :
    (failWith lj lo src s e).1.log =
      s.log ++ [{ src := src, ok := false, error := some e }] := by
  rw [failWith, if_pos h]

/-- Shape analysis of a `process_one` run: it either routes an exception
through `failWith` with nothing written, or saves the output and then either
logs the success record, skips logging, or fails in the final log append
(with the output already written). -/
theorem process_one_shape (wld : World) (src dst : String) (target : ℕ)
    (tw th : Option ℕ) (kind : Kind) (superres : String) (lj : Option String) :
    (∃ e, process_one wld src dst target tw th kind superres lj =
        failWith lj wld.logOk src ⟨false, []⟩ e) ∨
    (∃ m : MetaRec, m.src = src ∧ m.ok = true ∧
      (process_one wld src dst target tw th kind superres lj =
          (⟨true, []⟩, .ok m) ∨
        process_one wld src dst target tw th kind superres lj =
          (⟨true, [m]⟩, .ok m) ∨
        (wld.logOk = false ∧ lj.isSome = true ∧
          process_one wld src dst target tw th kind superres lj =
            failWith lj wld.logOk src ⟨true, []⟩ "log write failed"))) := by
  rcases hload : wld.loadSrc with eL | pil
  · left
    exact ⟨eL, by simp only [process_one, hload]⟩
  · rcases hstg : pipelineStages wld pil target tw th kind superres
      with eS | staged
    · left
      exact ⟨eS, by simp only [process_one, hload, hstg]⟩
    · set enh := (if staged.2.1 = Kind.pixel_art
          then unsharp_mask staged.1 1 (1/5) false
          else unsharp_mask staged.1 1 (1/10) true) with henh
      rcases hsave : wld.saveDst enh with _ | eD
      · rcases hlj : lj with _ | ljv
        · right
          exact ⟨⟨src, true, none, some dst, some enh.width, some enh.height,
            some staged.2.1, some staged.2.2⟩, rfl, rfl, Or.inl (by
              simp only [process_one, hload, hstg, ← henh, hsave])⟩
        · by_cases hlo : wld.logOk = true
          · right
            exact ⟨⟨src, true, none, some dst, some enh.width, some enh.height,
              some staged.2.1, some staged.2.2⟩, rfl, rfl, Or.inr (Or.inl (by
                simp only [process_one, hload, hstg, ← henh, hsave, hlo,
                  if_true, List.nil_append]))⟩
          · right
            exact ⟨⟨src, true, none, some dst, some enh.width, some enh.height,
              some staged.2.1, some staged.2.2⟩, rfl, rfl, Or.inr (Or.inr
                ⟨by simpa using hlo, by simp, by
                  simp only [process_one, hload, hstg, ← henh, hsave,
                    if_neg hlo]⟩)⟩
      · left
        exact ⟨eD, by simp only [process_one, hload, hstg, ← henh, hsave]⟩

/-- C9 (amended): a `process_one` failure re-raises with the source path
prefixed; if the destination was written despite the failure, the failure can
only be the final log append (log path given, sink broken) — any failure up
to and including the save leaves nothing at the destination; when the log
sink works, a failure appends an error record carrying the source path,
`ok = false` and the error text; and a success implies the output was
written. -/
theorem C9_process_one_failure_contract (wld : World) (src dst : String)
    (target : ℕ) (tw th : Option ℕ) (kind : Kind) (superres : String)
    (lj : Option String) :
    let r := process_one wld src dst target tw th kind superres lj
    (∀ e, r.2 = .error e → ∃ e0, e = src ++ ": " ++ e0) ∧
    (∀ e, r.2 = .error e → r.1.dstWritten = true →
      lj.isSome = true ∧ wld.logOk = false) ∧
    (∀ e, r.2 = .error e → lj.isSome = true → wld.logOk = true →
      ∃ e0 pre, r.1.log =
        pre ++ [{ src := src, ok := false, error := some e0 }]) ∧
    (∀ m, r.2 = .ok m → r.1.dstWritten = true ∧ m.src = src ∧ m.ok = true) := by
  obtain hsh := process_one_shape wld src dst target tw th kind superres lj
  rcases hsh with ⟨e1, hE⟩ | ⟨m, hsrc, hok, hcase⟩
  · rw [hE]
    refine ⟨?_, ?_, ?_, ?_⟩
    · intro e he
      rw [failWith_snd] at he
      exact ⟨e1, by injection he with h; exact h.symm⟩
    · intro e he hdw
      rw [failWith_dst] at hdw
      exact absurd hdw (by simp)
    · intro e he hsome hlo
      refine ⟨e1, [], ?_⟩
      rw [failWith_log _ _ _ _ _ ⟨hsome, hlo⟩]
    · intro m2 hm2
      rw [failWith_snd] at hm2
      exact Except.noConfusion hm2
  · rcases hcase with hB | hC | ⟨hlo, hsome, hD⟩
    · rw [hB]
      refine ⟨?_, ?_, ?_, ?_⟩
      · intro e he
        exact Except.noConfusion he
      · intro e he _
        exact Except.noConfusion he
      · intro e he _ _
        exact Except.noConfusion he
      · intro m2 hm2
        have hm : m = m2 := by simpa using hm2
        subst hm
        exact ⟨rfl, hsrc, hok⟩
    · rw [hC]
      refine ⟨?_, ?_, ?_, ?_⟩
      · intro e he
        exact Except.noConfusion he
      · intro e he _
        exact Except.noConfusion he
      · intro e he _ _
        exact Except.noConfusion he
      · intro m2 hm2
        have hm : m = m2 := by simpa using hm2
        subst hm
        exact ⟨rfl, hsrc, hok⟩
    · rw [hD]
      refine ⟨?_, ?_, ?_, ?_⟩
      · intro e he
        rw [failWith_snd] at he
        exact ⟨"log write failed", by injection he with h; exact h.symm⟩
      · intro e _ _
        exact ⟨hsome, hlo⟩
      · intro e he _ h2
        rw [hlo] at h2
        exact Bool.noConfusion h2
      · intro m2 hm2
        rw [failWith_snd] at hm2
        exact Except.noConfusion hm2

/-- A world in which every step works except the JSONL log sink. -/
def logFailWorld : World :=
  { loadSrc := .ok unitImg
    detectKind := Kind.illustration
    saveTmpIn := fun _ => none
    runRealesrgan := none
    loadTmpOut := .error "unused"
    saveDst := fun _ => none
    logOk := false }

/-- A world in which the image cannot be decoded. -/
def loadFailWorld : World :=
  { loadSrc := .error "decode failed"
    detectKind := Kind.illustration
    saveTmpIn := fun _ => none
    runRealesrgan := none
    loadTmpOut := .error "unused"
    saveDst := fun _ => none
    logOk := true }

/-- Counterexample for C9: when only the final metadata log append fails,
`process_one` raises, yet the output image has already been written to the
destination and no error record lands in the log. -/
theorem C9_log_failure_counterexample :
    let r := process_one logFailWorld "in.png" "out.png" 4 (some 4) (some 4)
      Kind.illustration "none" (some "log.jsonl")
    r.1.dstWritten = true ∧ r.2.isOk = false ∧ r.1.log = [] :=
  ⟨rfl, rfl, rfl⟩

/-- Witness for C9's amended claim at a world whose decode step fails. -/
theorem C9_process_one_failure_contract_witness :
    (∃ e0, "in.png" ++ ": " ++ "decode failed" = "in.png" ++ ": " ++ e0) ∧
    (∃ e0 pre,
      (process_one loadFailWorld "in.png" "out.png" 4 none none Kind.auto
          "none" (some "log.jsonl")).1.log =
        pre ++ [{ src := "in.png", ok := false, error := some e0 }]) := by
  have h := C9_process_one_failure_contract loadFailWorld "in.png" "out.png" 4
    none none Kind.auto "none" (some "log.jsonl")
  exact ⟨h.1 ("in.png" ++ ": " ++ "decode failed") rfl,
    h.2.2.1 ("in.png" ++ ": " ++ "decode failed") rfl rfl rfl⟩
